import Mathlib

set_option maxRecDepth 8000

/-
Verification development for the Code-AI-Interpreter editor extension.

The TypeScript sources are shallowly embedded in Lean:
* strings are Lean strings, with helper functions written by structural
  recursion on the character list so that all definitions evaluate inside
  the kernel;
* JSON values are an inductive type; JSON.parse is modelled by a fueled
  recursive-descent parser over the character list (numbers are modelled
  as integers, which covers every payload shape the extension exchanges);
* the stateful pieces (the interpretation cache, the inserted-comment
  tracking map, the pending document edits of one editor.edit transaction)
  are passed and returned explicitly;
* fetch is modelled by a FetchOutcome value describing either a transport
  failure (a rejected promise) or an HTTP response (ok flag, status,
  status text, body text).

String lengths follow the JavaScript convention (UTF-16 code units) via
jsLen wherever the source calls .length; this agrees with the code-point
count on ASCII text.
-/

/-! ## JavaScript-style string helpers (kernel-computable) -/

def isJsWs (c : Char) : Bool :=
  c = ' ' ∨ c = '\t' ∨ c = '\n' ∨ c = '\r' ∨ c = '\x0b' ∨ c = '\x0c'

def dropWhileJsWs : List Char → List Char
  | [] => []
  | c :: cs => if isJsWs c then dropWhileJsWs cs else c :: cs

/-- Model of the JavaScript String.prototype.trim used throughout the source. -/
def jsTrim (s : String) : String :=
  ⟨((dropWhileJsWs s.data).reverse |> dropWhileJsWs).reverse⟩

/-- Boolean prefix test on character lists. -/
def charsStartWith : List Char → List Char → Bool
  | [], _ => true
  | _ :: _, [] => false
  | p :: ps, c :: cs => p = c && charsStartWith ps cs

/-- Model of String.prototype.startsWith. -/
def strStartsWith (s pat : String) : Bool :=
  charsStartWith pat.data s.data

/-- Boolean infix test on character lists. -/
def charsContain (pat : List Char) : List Char → Bool
  | [] => pat.isEmpty
  | c :: cs => charsStartWith pat (c :: cs) || charsContain pat cs

/-- Model of String.prototype.includes. -/
def containsSubstr (s pat : String) : Bool :=
  charsContain pat.data s.data

/-- UTF-16 size of one character, as JavaScript counts string lengths. -/
def charUnits (c : Char) : Nat :=
  if c.val < 0x10000 then 1 else 2

/-- Model of the JavaScript .length property on strings (UTF-16 units). -/
def jsLen (s : String) : Nat :=
  (s.data.map charUnits).sum

def utf16TakeGo : Nat → List Char → List Char
  | _, [] => []
  | 0, _ => []
  | n + 1, c :: cs =>
    if charUnits c ≤ n + 1 then c :: utf16TakeGo (n + 1 - charUnits c) cs else []

/-- Model of String.prototype.substring(0, n) (counted in UTF-16 units). -/
def jsSubstring (s : String) (n : Nat) : String :=
  ⟨utf16TakeGo n s.data⟩

/-- Split a string at every occurrence of one character (models
String.prototype.split with a single-character separator). -/
def splitOnCharGo (c : Char) : List Char → List Char → List String
  | [], acc => [⟨acc.reverse⟩]
  | x :: xs, acc =>
    if x = c then ⟨acc.reverse⟩ :: splitOnCharGo c xs []
    else splitOnCharGo c xs (x :: acc)

def splitOnChar (c : Char) (s : String) : List String :=
  splitOnCharGo c s.data []

/-- Left-to-right, non-overlapping global replacement, as a /pat/g regex
replace does; the replacement text is not rescanned.  Fueled so that the
kernel can evaluate it (the fuel is the input length, which suffices since
each step consumes at least one character). -/
def replaceAllGo (pat rep : List Char) : Nat → List Char → List Char
  | 0, s => s
  | _ + 1, [] => []
  | fuel + 1, c :: cs =>
    if charsStartWith pat (c :: cs) ∧ pat ≠ [] then
      rep ++ replaceAllGo pat rep fuel ((c :: cs).drop pat.length)
    else
      c :: replaceAllGo pat rep fuel cs

def jsReplaceAll (s pat rep : String) : String :=
  ⟨replaceAllGo pat.data rep.data s.data.length s.data⟩

/-- Join a list of strings with a separator (models Array.prototype.join). -/
def joinSep (sep : String) : List String → String
  | [] => ""
  | [x] => x
  | x :: y :: xs => x ++ sep ++ joinSep sep (y :: xs)

/-- Concatenation of a list of strings. -/
def strConcat : List String → String
  | [] => ""
  | x :: xs => x ++ strConcat xs

def singleQuote : String := ⟨['\x27']⟩

/-! ## JSON values

The value type is a mutual inductive family (rather than nesting List)
so that all recursive functions over it are structural and evaluate
inside the kernel. -/

mutual
inductive JsonValue where
  | null
  | bool (b : Bool)
  | num (n : Int)
  | str (s : String)
  | arr (elems : JsonArr)
  | obj (fields : JsonObj)
deriving DecidableEq
inductive JsonArr where
  | nil
  | cons (v : JsonValue) (rest : JsonArr)
deriving DecidableEq
inductive JsonObj where
  | nil
  | cons (k : String) (v : JsonValue) (rest : JsonObj)
deriving DecidableEq
end

def JsonArr.toList : JsonArr → List JsonValue
  | .nil => []
  | .cons v rest => v :: JsonArr.toList rest

/-- Field lookup on an object field list; on duplicate keys the last one
wins, as JSON.parse builds objects. -/
def JsonObj.getAux : JsonObj → String → Option JsonValue → Option JsonValue
  | .nil, _, acc => acc
  | .cons k v rest, name, acc =>
    JsonObj.getAux rest name (if k = name then some v else acc)

/-- Property read on a JSON value that is not null: non-object receivers
(booleans, numbers, strings, arrays) have none of the read fields, their
properties reading as undefined in JavaScript, modelled by none.  Reading
a property of JSON null throws a TypeError instead; every call site of
the embedding where the receiver can be null therefore tests for null
first and models the thrown TypeError explicitly (see interpretViaNetwork
and httpErrorMessage). -/
def JsonValue.getField : JsonValue → String → Option JsonValue
  | .obj fields, name => JsonObj.getAux fields name none
  | _, _ => none

/-- JavaScript truthiness of a JSON value. -/
def JsonValue.truthy : JsonValue → Bool
  | .null => false
  | .bool b => b
  | .num n => n ≠ 0
  | .str s => s ≠ ""
  | .arr _ => true
  | .obj _ => true

mutual
/-- JavaScript string coercion of a JSON value, as a template literal or
String(v) performs it: arrays join their elements with commas, rendering
null elements as empty; objects display as the fixed object tag. -/
def JsonValue.display : JsonValue → String
  | .null => "null"
  | .bool b => if b then "true" else "false"
  | .num n => toString n
  | .str s => s
  | .arr es => joinSep "," (JsonArr.displayParts es)
  | .obj _ => "[object Object]"
def JsonArr.displayParts : JsonArr → List String
  | .nil => []
  | .cons .null rest => "" :: JsonArr.displayParts rest
  | .cons v rest => JsonValue.display v :: JsonArr.displayParts rest
end

/-! ## A JSON parser modelling JSON.parse

Restrictions of the model: numbers are integers (no fraction or exponent
part — every payload the extension exchanges uses integer line numbers),
and the parser does not reject leading zeros.  These corners are never
exercised by the theorems below. -/

def hexVal (c : Char) : Option Nat :=
  if '0' ≤ c ∧ c ≤ '9' then some (c.toNat - '0'.toNat)
  else if 'a' ≤ c ∧ c ≤ 'f' then some (c.toNat - 'a'.toNat + 10)
  else if 'A' ≤ c ∧ c ≤ 'F' then some (c.toNat - 'A'.toNat + 10)
  else none

def isJsonWs (c : Char) : Bool :=
  c = ' ' ∨ c = '\t' ∨ c = '\n' ∨ c = '\r'

def skipJsonWs : List Char → List Char
  | [] => []
  | c :: cs => if isJsonWs c then skipJsonWs cs else c :: cs

/-- Parse the remainder of a JSON string literal (the opening quote has
been consumed), handling the standard escapes. -/
def parseStringAux : List Char → List Char → Option (String × List Char)
  | [], _ => none
  | '"' :: cs, acc => some (⟨acc.reverse⟩, cs)
  | '\\' :: '"' :: cs, acc => parseStringAux cs ('"' :: acc)
  | '\\' :: '\\' :: cs, acc => parseStringAux cs ('\\' :: acc)
  | '\\' :: '/' :: cs, acc => parseStringAux cs ('/' :: acc)
  | '\\' :: 'b' :: cs, acc => parseStringAux cs ('\x08' :: acc)
  | '\\' :: 'f' :: cs, acc => parseStringAux cs ('\x0c' :: acc)
  | '\\' :: 'n' :: cs, acc => parseStringAux cs ('\n' :: acc)
  | '\\' :: 'r' :: cs, acc => parseStringAux cs ('\r' :: acc)
  | '\\' :: 't' :: cs, acc => parseStringAux cs ('\t' :: acc)
  | '\\' :: 'u' :: h1 :: h2 :: h3 :: h4 :: cs, acc =>
    match hexVal h1, hexVal h2, hexVal h3, hexVal h4 with
    | some a, some b, some c, some d =>
      parseStringAux cs (Char.ofNat (a * 4096 + b * 256 + c * 16 + d) :: acc)
    | _, _, _, _ => none
  | '\\' :: _, _ => none
  | c :: cs, acc => parseStringAux cs (c :: acc)

def parseDigitsAux : List Char → Nat → Nat × List Char
  | [], acc => (acc, [])
  | c :: cs, acc =>
    if c.isDigit then parseDigitsAux cs (acc * 10 + (c.toNat - 48))
    else (acc, c :: cs)

def parseNumber : List Char → Option (Int × List Char)
  | [] => none
  | '-' :: c :: cs =>
    if c.isDigit then
      let p := parseDigitsAux cs (c.toNat - 48)
      some (-(Int.ofNat p.1), p.2)
    else none
  | c :: cs =>
    if c.isDigit then
      let p := parseDigitsAux cs (c.toNat - 48)
      some (Int.ofNat p.1, p.2)
    else none

inductive PMode where
  | val
  | elems
  | fields

inductive POut where
  | v (j : JsonValue)
  | es (l : JsonArr)
  | fs (l : JsonObj)

/-- One recursive-descent parser for values, array element lists and object
field lists, structurally recursive on the fuel so the kernel can run it. -/
def parseRec : Nat → PMode → List Char → Option (POut × List Char)
  | 0, _, _ => none
  | fuel + 1, .val, cs =>
    match skipJsonWs cs with
    | 'n' :: 'u' :: 'l' :: 'l' :: rest => some (.v .null, rest)
    | 't' :: 'r' :: 'u' :: 'e' :: rest => some (.v (.bool true), rest)
    | 'f' :: 'a' :: 'l' :: 's' :: 'e' :: rest => some (.v (.bool false), rest)
    | '"' :: rest =>
      match parseStringAux rest [] with
      | some (s, r) => some (.v (.str s), r)
      | none => none
    | '[' :: rest =>
      (match skipJsonWs rest with
       | ']' :: r2 => some (.v (.arr .nil), r2)
       | _ =>
         match parseRec fuel .elems rest with
         | some (.es es, r) => some (.v (.arr es), r)
         | _ => none)
    | '{' :: rest =>
      (match skipJsonWs rest with
       | '}' :: r2 => some (.v (.obj .nil), r2)
       | _ =>
         match parseRec fuel .fields rest with
         | some (.fs fs, r) => some (.v (.obj fs), r)
         | _ => none)
    | rest =>
      match parseNumber rest with
      | some (n, r) => some (.v (.num n), r)
      | none => none
  | fuel + 1, .elems, cs =>
    match parseRec fuel .val cs with
    | some (.v v, rest) =>
      (match skipJsonWs rest with
       | ',' :: r2 =>
         (match parseRec fuel .elems r2 with
          | some (.es es, r) => some (.es (.cons v es), r)
          | _ => none)
       | ']' :: r2 => some (.es (.cons v .nil), r2)
       | _ => none)
    | _ => none
  | fuel + 1, .fields, cs =>
    match skipJsonWs cs with
    | '"' :: rest =>
      (match parseStringAux rest [] with
       | some (k, r1) =>
         (match skipJsonWs r1 with
          | ':' :: r2 =>
            (match parseRec fuel .val r2 with
             | some (.v v, r3) =>
               (match skipJsonWs r3 with
                | ',' :: r4 =>
                  (match parseRec fuel .fields r4 with
                   | some (.fs fs, r) => some (.fs (.cons k v fs), r)
                   | _ => none)
                | '}' :: r4 => some (.fs (.cons k v .nil), r4)
                | _ => none)
             | _ => none)
          | _ => none)
       | none => none)
    | _ => none

/-- Model of JSON.parse: none models a thrown SyntaxError. -/
def parseJson (s : String) : Option JsonValue :=
  match parseRec (2 * s.data.length + 2) .val s.data with
  | some (.v v, rest) => if skipJsonWs rest = [] then some v else none
  | _ => none

/-! ## Association maps modelling JavaScript Map objects

alSet replaces the value in place when the key exists (as Map.set does)
and appends otherwise; alGet is total lookup.  Map holds at most one entry
per key, so lookup takes the first match. -/

def alGet [DecidableEq α] : List (α × β) → α → Option β
  | [], _ => none
  | (k, v) :: rest, key => if k = key then some v else alGet rest key

def alSet [DecidableEq α] : List (α × β) → α → β → List (α × β)
  | [], key, val => [(key, val)]
  | (k, v) :: rest, key, val =>
    if k = key then (key, val) :: rest else (k, v) :: alSet rest key val

theorem alGet_set_self [DecidableEq α] (m : List (α × β)) (k : α) (v : β) :
    alGet (alSet m k v) k = some v := by
  induction m with
  | nil => simp [alGet, alSet]
  | cons p rest ih =>
    by_cases h : p.1 = k
    · simp [alSet, alGet, h]
    · simp [alSet, alGet, h, ih]

theorem alGet_set_ne [DecidableEq α] (m : List (α × β)) (k k2 : α) (v : β)
    (h : k2 ≠ k) : alGet (alSet m k v) k2 = alGet m k2 := by
  induction m with
  | nil => simp [alGet, alSet, Ne.symm h]
  | cons p rest ih =>
    obtain ⟨pk, pv⟩ := p
    by_cases hp : pk = k
    · subst hp
      simp [alSet, alGet, Ne.symm h]
    · by_cases hp2 : pk = k2 <;> simp [alSet, alGet, hp, hp2, ih, h]

/-! ## The explanation client: interpretLines

Embeds the batched client of the second extension variant
(src/src/extension.ts lines 333-437).  The interpretation cache maps the
key string to the parsed stored response; the source stores
JSON.stringify(data) and re-parses it on a hit, and that round trip is the
identity for values that were themselves produced by JSON.parse, so the
cache value is modelled already parsed (in particular the branch
swallowing a cache-entry parse failure is unreachable and the hit replay
is total).  The result Map has keys Option Int (none models the NaN key
produced when an item lacks a numeric lineNumber) and values
Option JsonValue (none models undefined). -/

abbrev Cache := List (String × JsonValue)

abbrev RMap := List (Option Int × Option JsonValue)

inductive FetchOutcome where
  | response (ok : Bool) (status : Nat) (statusText : String) (text : String)
  | networkError (msg : String)
deriving DecidableEq

structure InterpretOutcome where
  result : RMap
  cache : Cache
  usedNetwork : Bool
deriving DecidableEq

/-- The cache key: codeLines.join(newline) + colon + language. -/
def cacheKey (codeLines : List String) (language : String) : String :=
  joinSep "\n" codeLines ++ ":" ++ language

/-- A field access followed by a JavaScript truthiness test, as the
source's patterns data.error, data.body, errorData.error perform. -/
def truthyField (v : JsonValue) (name : String) : Option JsonValue :=
  match v.getField name with
  | some f => if f.truthy then some f else none
  | none => none

/-- The lineNumber property of one explanations item, as used in
item.lineNumber - 1; none models the NaN produced by a missing or
non-numeric property.  (A null item would raise a TypeError in the
source; the theorems below never exercise null items — the claims about
the fill paths carry hypotheses requiring a numeric lineNumber on every
item.) -/
def itemLineNumber (item : JsonValue) : Option Int :=
  match item.getField "lineNumber" with
  | some (.num n) => some n
  | _ => none

/-- The TypeError message raised by reading a property of null, in the
wording of the V8 runtime the editor embeds. -/
def nullReadMessage (name : String) : String :=
  "Cannot read properties of null (reading " ++ singleQuote ++ name ++
    singleQuote ++ ")"

/-- Error-message extraction for a non-ok response:
errorData.error or errorData.message or the HTTP default.  The catch
branch (raw body truncated to 200 units when non-empty) is reached both
on a parse failure and when the body parses to JSON null, since reading
errorData.error then raises a TypeError inside the same try. -/
def httpErrorMessage (status : Nat) (statusText responseText : String) : String :=
  let dflt := s!"HTTP {status}: {statusText}"
  match parseJson responseText with
  | some d =>
    if d = JsonValue.null then
      (if responseText ≠ "" then jsSubstring responseText 200 else dflt)
    else
      match truthyField d "error" with
      | some v => v.display
      | none =>
        match truthyField d "message" with
        | some v => v.display
        | none => dflt
  | none => if responseText ≠ "" then jsSubstring responseText 200 else dflt

def networkErrPats : List String :=
  ["Failed to fetch", "NetworkError", "The request"]

/-- The catch-handler message normalization: an empty message becomes the
unknown-error text; transport-looking messages become the fixed
connectivity advice. -/
def normalizeError (msg : String) : String :=
  if msg ≠ "" ∧ networkErrPats.any (fun p => containsSubstr msg p) then
    "Network error. Please check your internet connection and try again."
  else if msg = "" then "Unknown error occurred" else msg

/-- The catch handler writes the same Error-prefixed string to every index
of the request array. -/
def errorFill (codeLines : List String) (msg : String) : RMap :=
  (List.range codeLines.length).foldl
    (fun acc i => alSet acc (some (Int.ofNat i)) (some (.str ("Error: " ++ msg)))) []

/-- The success path fills the result from the explanations items in
order, keeping only 1-based line numbers that map into the request array
(a missing or non-numeric lineNumber yields NaN, which fails both range
comparisons). -/
def fillExplanations (codeLines : List String) : List JsonValue → RMap → RMap
  | [], m => m
  | item :: rest, m =>
    fillExplanations codeLines rest
      (match itemLineNumber item with
       | some n =>
         if 0 ≤ n - 1 ∧ n - 1 < (codeLines.length : Int) then
           alSet m (some (n - 1)) (item.getField "explanation")
         else m
       | none => m)

/-- The cache-hit replay fills the result from the stored explanations
items in order, without any range check (a NaN line number becomes the
NaN map key, modelled by none). -/
def replayExplanations : List JsonValue → RMap → RMap
  | [], m => m
  | item :: rest, m =>
    replayExplanations rest
      (alSet m ((itemLineNumber item).map (· - 1)) (item.getField "explanation"))

/-- Final step of the success path: require a (truthy) explanations array,
fill the result and store the parsed payload under the cache key;
otherwise the missing-array error is thrown.  Its callers only reach it
with a non-null payload (a null one has already raised a TypeError at the
earlier error-field read), so the explanations read cannot throw. -/
def finishData (cache : Cache) (key : String) (codeLines : List String)
    (data : JsonValue) : InterpretOutcome :=
  match data.getField "explanations" with
  | some (.arr items) =>
    { result := fillExplanations codeLines items.toList []
      cache := alSet cache key data
      usedNetwork := true }
  | _ =>
    { result := errorFill codeLines
        (normalizeError "Invalid response format: explanations array not found")
      cache := cache
      usedNetwork := true }

/-- The network round trip and response normalization of interpretLines:
non-ok statuses, unparsable bodies, outer or nested error fields, the
one-level body unwrap, and the explanations check.  A payload parsing to
JSON null raises a TypeError at the data.error read, which the outer
catch turns into a per-unit error with the TypeError text; a nested
payload parsing to JSON null raises the TypeError at the bodyData.error
read inside the inner try, whose catch — the message carrying no
Server-error tag — rethrows the fixed parse-failure message. -/
def interpretViaNetwork (net : FetchOutcome) (cache : Cache)
    (codeLines : List String) (key : String) : InterpretOutcome :=
  match net with
  | .networkError m =>
    { result := errorFill codeLines (normalizeError m)
      cache := cache, usedNetwork := true }
  | .response ok status statusText text =>
    if ok = false then
      { result := errorFill codeLines
          (normalizeError (httpErrorMessage status statusText text))
        cache := cache, usedNetwork := true }
    else
      match parseJson text with
      | none =>
        { result := errorFill codeLines
            (normalizeError ("Invalid response format: " ++ jsSubstring text 100))
          cache := cache, usedNetwork := true }
      | some data =>
        if data = JsonValue.null then
          { result := errorFill codeLines
              (normalizeError (nullReadMessage "error"))
            cache := cache, usedNetwork := true }
        else
          match truthyField data "error" with
          | some e =>
            { result := errorFill codeLines
                (normalizeError ("Server error: " ++ e.display))
              cache := cache, usedNetwork := true }
          | none =>
            match truthyField data "body" with
            | none => finishData cache key codeLines data
            | some bodyVal =>
              match parseJson bodyVal.display with
              | none =>
                { result := errorFill codeLines
                    (normalizeError "Failed to parse response body")
                  cache := cache, usedNetwork := true }
              | some bodyData =>
                if bodyData = JsonValue.null then
                  { result := errorFill codeLines
                      (normalizeError "Failed to parse response body")
                    cache := cache, usedNetwork := true }
                else
                  match truthyField bodyData "error" with
                  | some e2 =>
                    { result := errorFill codeLines
                        (normalizeError ("Server error: " ++ e2.display))
                      cache := cache, usedNetwork := true }
                  | none => finishData cache key codeLines bodyData

/-- interpretLines: compute the cache key, replay a cached parsed result
holding an explanations array, and otherwise go to the network.  A cached
value without a (truthy) array falls through to the network, matching the
source: a truthy non-array raises a TypeError during the replay that the
surrounding catch turns into a fresh request, and a null cached value
raises the TypeError already at the explanations read with the same
fall-through — both land in the catch-all arm below, as does a falsy or
absent field. -/
def interpretLines (net : FetchOutcome) (cache : Cache)
    (codeLines : List String) (language : String) : InterpretOutcome :=
  let key := cacheKey codeLines language
  match alGet cache key with
  | some cachedData =>
    match cachedData.getField "explanations" with
    | some (.arr items) =>
      { result := replayExplanations items.toList []
        cache := cache, usedNetwork := false }
    | _ => interpretViaNetwork net cache codeLines key
  | none => interpretViaNetwork net cache codeLines key

/-! ## Code-unit extractors

collectSelectedLines embeds the line collection of interpretSelectedLines
(src/src/extension.ts lines 595-611): the trimmed line must be non-empty
and must not start with any of the six comment markers.
autoInterpretLines embeds the unit selection of
CodeInterpretationProvider.provideInlayHints (lines 95-102): at most the
first 100 lines, skipping blank lines and the three markers it checks. -/

def qualifiesSelected (text : String) : Bool :=
  let t := jsTrim text
  !(t = "") && !(strStartsWith t "//") && !(strStartsWith t "/*") &&
  !(strStartsWith t "*") && !(strStartsWith t "#") && !(strStartsWith t "--") &&
  !(strStartsWith t singleQuote)

def selLineUnit (doc : List String) (ln : Nat) : Option (Nat × String) :=
  match doc[ln]? with
  | some text => if qualifiesSelected text then some (ln, jsTrim text) else none
  | none => none

def collectSelectedLines (doc : List String) (selected : List Nat) :
    List (Nat × String) :=
  selected.filterMap (selLineUnit doc)

def autoLineUnit (doc : List String) (i : Nat) : Option (Nat × String) :=
  match doc[i]? with
  | some text =>
    let t := jsTrim text
    if t = "" ∨ strStartsWith t "//" ∨ strStartsWith t "/*" ∨ strStartsWith t "*"
    then none else some (i, t)
  | none => none

def autoInterpretLines (doc : List String) : List (Nat × String) :=
  (List.range (min doc.length 100)).filterMap (autoLineUnit doc)

/-! ## The persistent-comment renderer: insertCommentsAsExplanations

Embeds src/src/extension.ts lines 443-560.  The single editor.edit
transaction is modelled by the one EditOp list returned; the active
editor is modelled by the URI of its document. -/

inductive EditOp where
  | deleteLine (line : Nat)
  | insert (line : Nat) (text : String)
deriving DecidableEq

structure InsertState where
  insertedComments : List (String × List Nat)
deriving DecidableEq

def commentPrefixFor (languageId : String) : String :=
  match languageId with
  | "python" => "# 🧠 "
  | "javascript" | "typescript" | "javascriptreact" | "typescriptreact"
  | "java" | "c" | "cpp" | "csharp" | "go" | "rust" | "swift" | "kotlin"
  | "dart" => "// 🧠 "
  | "html" | "xml" => "<!-- 🧠 "
  | "css" | "scss" | "less" | "sass" => "/* 🧠 "
  | "sql" => "-- 🧠 "
  | "shellscript" | "bash" | "powershell" | "yaml" | "yml" => "# 🧠 "
  | "ruby" | "perl" | "lua" => "# 🧠 "
  | _ => "// 🧠 "

def commentSuffixFor (languageId : String) : String :=
  match languageId with
  | "html" | "xml" => " -->"
  | "css" | "scss" | "less" | "sass" => " */"
  | _ => ""

def commentPatterns : List String := ["//", "#", "--", "<!--", "/*"]

/-- The explanation-cleaning pipeline: the global replacements in source
order (note the pattern ending in a period can never match, its stem
having been removed by the previous step), newlines to spaces, whitespace
runs collapsed, then trim. -/
def collapseWsGo : Bool → List Char → List Char
  | _, [] => []
  | prevWs, c :: cs =>
    if isJsWs c then (if prevWs then [] else [' ']) ++ collapseWsGo true cs
    else c :: collapseWsGo false cs

def collapseWs (s : String) : String :=
  ⟨collapseWsGo false s.data⟩

def cleanExplanation (e : String) : String :=
  let s1 := jsReplaceAll e "설명" ""
  let s2 := jsReplaceAll s1 "이 코드는" ""
  let s3 := jsReplaceAll s2 "코드는" ""
  let s4 := jsReplaceAll s3 "합니다" ""
  let s5 := jsReplaceAll s4 "합니다." ""
  let s6 := jsReplaceAll s5 "//" ""
  let s7 := jsReplaceAll s6 "#" ""
  let s8 := jsReplaceAll s7 "--" ""
  let s9 := jsReplaceAll s8 "<!--" ""
  let s10 := jsReplaceAll s9 "/*" ""
  let s11 := jsReplaceAll s10 "*/" ""
  let s12 := jsReplaceAll s11 "\n" " "
  jsTrim (collapseWs s12)

/-- The word-wrapping loop of the long-explanation branch: currentLine
starts as the bare comment marker; the tested line is the current line,
a separating space when the line is no longer the bare marker, the word
and the suffix; flushed lines are returned without the indent and suffix
that the caller attaches. -/
def wrapGo (pre suf : String) (cur : String) : List String → List String
  | [] => [cur]
  | w :: ws =>
    if jsLen (cur ++ (if cur = pre then "" else " ") ++ w ++ suf) > 100 ∧
        cur ≠ pre then
      cur :: wrapGo pre suf (pre ++ w) ws
    else
      wrapGo pre suf (cur ++ (if cur = pre then "" else " ") ++ w) ws

def wrapLines (pre suf : String) (words : List String) : List String :=
  wrapGo pre suf pre words

/-- The comment text inserted below one code line: short cleaned
explanations become a single comment line, long ones are word-wrapped. -/
def commentTextFor (indent pre suf expl : String) : String :=
  let cleaned := cleanExplanation expl
  if jsLen cleaned ≤ 100 then indent ++ pre ++ cleaned ++ suf ++ "\n"
  else
    strConcat ((wrapLines pre suf (splitOnChar ' ' cleaned)).map
      (fun l => indent ++ l ++ suf ++ "\n"))

/-- Leading whitespace of the code line (the ^\s* match of the source). -/
def indentOf (doc : List String) (ln : Nat) : String :=
  match doc[ln]? with
  | some t => ⟨t.data.takeWhile isJsWs⟩
  | none => ""

/-- The run of contiguous already-inserted explanation comments below a
line: comment-marker start plus the brain emoji; fueled by the document
length.  Reads the pre-edit document snapshot, as the source does inside
the edit callback. -/
def deleteRun (doc : List String) : Nat → Nat → List Nat
  | 0, _ => []
  | fuel + 1, dl =>
    match doc[dl]? with
    | none => []
    | some lt =>
      let t := jsTrim lt
      if commentPatterns.any (fun p => strStartsWith t p) ∧ containsSubstr t "🧠"
      then dl :: deleteRun doc fuel (dl + 1)
      else []

/-- One iteration of the insertion loop: a missing or empty explanation is
skipped; a line already tracked first deletes the stale comment run; the
new comment is inserted at the start of the following line and the line
is added to the tracking set. -/
def processLine (doc : List String) (pre suf : String)
    (explanations : List (Nat × String)) (ln : Nat) (inserted : List Nat) :
    List EditOp × List Nat :=
  match alGet explanations ln with
  | none => ([], inserted)
  | some expl =>
    if expl = "" then ([], inserted)
    else
      let dels := if ln ∈ inserted then deleteRun doc doc.length (ln + 1) else []
      let text := commentTextFor (indentOf doc ln) pre suf expl
      (dels.map EditOp.deleteLine ++ [EditOp.insert (ln + 1) text],
       if ln ∈ inserted then inserted else inserted ++ [ln])

def insertLoop (doc : List String) (pre suf : String)
    (explanations : List (Nat × String)) :
    List Nat → List Nat → List EditOp × List Nat
  | [], inserted => ([], inserted)
  | ln :: rest, inserted =>
    let p := processLine doc pre suf explanations ln inserted
    let r := insertLoop doc pre suf explanations rest p.2
    (p.1 ++ r.1, r.2)

/-- Descending insertion sort, modelling the numeric sort (a, b) => b - a
applied to the distinct keys of the explanations Map. -/
def insertDesc (x : Nat) : List Nat → List Nat
  | [] => [x]
  | y :: ys => if y ≤ x then x :: y :: ys else y :: insertDesc x ys

def sortDesc (l : List Nat) : List Nat :=
  l.foldr insertDesc []

/-- insertCommentsAsExplanations: nothing happens unless the active
editor shows the given document; otherwise the explanation keys are
processed in descending order inside one edit transaction and the
tracking state for the document URI is updated. -/
def insertCommentsAsExplanations (activeUri : Option String) (docUri : String)
    (doc : List String) (languageId : String)
    (explanations : List (Nat × String)) (st : InsertState) :
    List EditOp × InsertState :=
  if activeUri = some docUri then
    let inserted0 := (alGet st.insertedComments docUri).getD []
    let pre := commentPrefixFor languageId
    let suf := commentSuffixFor languageId
    let sorted := sortDesc (explanations.map (·.1))
    let r := insertLoop doc pre suf explanations sorted inserted0
    (r.1, ⟨alSet st.insertedComments docUri r.2⟩)
  else ([], st)

/-- The line numbers of the insert operations, in emission order. -/
def extractInserts : List EditOp → List Nat
  | [] => []
  | .insert l _ :: rest => l :: extractInserts rest
  | .deleteLine _ :: rest => extractInserts rest

/-! ## The block-mode extractor: parseCodeBlocks

Embeds the parseCodeBlocks function of the block-interpretation variant
kept in the repository (the iteration embedded in src/README.md): a
sequential brace-depth scan over non-comment lines, emitting a block when
the matching closing brace returns the depth to zero, and degenerating to
one unit per qualifying line when no block was found. -/

def blockKeywords : List String :=
  ["function", "class", "if", "for", "while", "switch", "try", "catch",
   "finally", "else"]

/-- The =>-then-open-brace test of the block-introducer heuristic. -/
def arrowBraceChars : List Char → Bool
  | [] => false
  | c :: cs =>
    (if c = '=' then
      match cs with
      | c2 :: cs2 =>
        c2 = '>' && (match dropWhileJsWs cs2 with
          | '\x7b' :: _ => true
          | _ => false)
      | [] => false
    else false) || arrowBraceChars cs

def endsWithBrace (s : String) : Bool :=
  match s.data.getLast? with
  | some c => c = '\x7b'
  | none => false

/-- The block-introducer heuristic of the source (note the keyword test
has no word boundary, exactly as the regex behaves on a trimmed line). -/
def isBlockStartLine (t : String) : Bool :=
  blockKeywords.any (fun kw => strStartsWith t kw) || endsWithBrace t ||
  arrowBraceChars t.data

structure ScanState where
  depth : Int
  blockStart : Option Nat
  blocks : List (Nat × Nat × String)
deriving DecidableEq

def scanChar (lines : List String) (i : Nat) (isStart : Bool)
    (st : ScanState) (c : Char) : ScanState :=
  if c = '\x7b' then
    { st with
      blockStart := if st.depth = 0 ∧ isStart then some i else st.blockStart
      depth := st.depth + 1 }
  else if c = '\x7d' then
    let d := st.depth - 1
    match st.blockStart with
    | some s =>
      if d = 0 then
        { depth := d, blockStart := none
          blocks := st.blocks ++
            [(s, i, joinSep "\n" ((lines.drop s).take (i + 1 - s)))] }
      else { st with depth := d }
    | none => { st with depth := d }
  else st

def scanLine (lines : List String) (st : ScanState) (i : Nat) : ScanState :=
  match lines[i]? with
  | none => st
  | some line =>
    let t := jsTrim line
    if t = "" ∨ strStartsWith t "//" ∨ strStartsWith t "/*" ∨ strStartsWith t "*"
    then st
    else line.data.foldl (scanChar lines i (isBlockStartLine t)) st

/-- The fallback of parseCodeBlocks: one block per qualifying line. -/
def perLineBlocks (doc : List String) : List (Nat × Nat × String) :=
  (List.range doc.length).filterMap fun i =>
    match doc[i]? with
    | some line =>
      let t := jsTrim line
      if t ≠ "" ∧ ¬strStartsWith t "//" ∧ ¬strStartsWith t "/*" ∧
         ¬strStartsWith t "*"
      then some (i, i, t) else none
    | none => none

def parseCodeBlocks (doc : List String) : List (Nat × Nat × String) :=
  let final := (List.range doc.length).foldl (scanLine doc) ⟨0, none, []⟩
  if final.blocks = [] then perLineBlocks doc else final.blocks

/-! ## Helper lemmas -/

theorem errorFill_aux_get (v : Option JsonValue) (n i : Nat) (h : i < n) :
    alGet ((List.range n).foldl
      (fun acc j => alSet acc (some (Int.ofNat j)) v) []) (some (Int.ofNat i)) =
    some v := by
  induction n with
  | zero => omega
  | succ n ih =>
    rw [List.range_succ, List.foldl_append]
    simp only [List.foldl]
    by_cases hin : i = n
    · subst hin
      exact alGet_set_self _ _ _
    · rw [alGet_set_ne]
      · exact ih (by omega)
      · simp
        omega

/-- Every index of the request array carries the same Error-prefixed
string after the catch handler ran. -/
theorem errorFill_get (codeLines : List String) (msg : String) (i : Nat)
    (h : i < codeLines.length) :
    alGet (errorFill codeLines msg) (some (Int.ofNat i)) =
    some (some (.str ("Error: " ++ msg))) :=
  errorFill_aux_get _ _ _ h

theorem getField_ne_null (v : JsonValue) (name : String) (x : JsonValue)
    (h : v.getField name = some x) : v ≠ JsonValue.null := by
  intro he
  subst he
  simp [JsonValue.getField] at h

theorem truthyField_ne_null (v : JsonValue) (name : String) (e : JsonValue)
    (h : truthyField v name = some e) : v ≠ JsonValue.null := by
  intro he
  subst he
  simp [truthyField, JsonValue.getField] at h

theorem interpretLines_miss (net : FetchOutcome) (cache : Cache)
    (codeLines : List String) (language : String)
    (h : alGet cache (cacheKey codeLines language) = none) :
    interpretLines net cache codeLines language =
    interpretViaNetwork net cache codeLines (cacheKey codeLines language) := by
  simp only [interpretLines, h]

/-! ## C10 -/

/-- C10: if there is no active editor, or the active editor shows a
different document, insertCommentsAsExplanations performs no edit and
leaves the inserted-comment tracking state unchanged. -/
theorem c10_inactive_editor_frame (activeUri : Option String) (docUri : String)
    (doc : List String) (languageId : String)
    (explanations : List (Nat × String)) (st : InsertState)
    (h : activeUri ≠ some docUri) :
    insertCommentsAsExplanations activeUri docUri doc languageId explanations st =
      ([], st) := by
  simp [insertCommentsAsExplanations, h]

theorem c10_inactive_editor_frame_witness :
    ((none : Option String) ≠ some "file:a") ∧
    insertCommentsAsExplanations none "file:a" ["const x = 1;"] "python"
      [(0, "inits x")] ⟨[]⟩ = ([], ⟨[]⟩) :=
  ⟨by decide,
   c10_inactive_editor_frame none "file:a" ["const x = 1;"] "python"
     [(0, "inits x")] ⟨[]⟩ (by decide)⟩

/-! ## C3 -/

def c3Body : String := "\x7b\"error\":\"rate limited\"\x7d"

/-- C3 (amended): a failed batch writes one identical error string to
every unit; for an HTTP 500 whose body is the rate-limited error object,
that string is Error: rate limited (the non-ok path uses the extracted
server message verbatim, without the Server-error prefix). -/
theorem c3_http500_uniform_error (codeLines : List String) (language : String)
    (cache : Cache) (statusText : String)
    (hmiss : alGet cache (cacheKey codeLines language) = none)
    (i : Nat) (hi : i < codeLines.length) :
    alGet (interpretLines (.response false 500 statusText c3Body)
        cache codeLines language).result (some (Int.ofNat i)) =
      some (some (.str "Error: rate limited")) := by
  rw [interpretLines_miss _ _ _ _ hmiss]
  have hmsg : httpErrorMessage 500 statusText c3Body = "rate limited" := by
    simp only [httpErrorMessage]
    rw [show parseJson c3Body =
      some (JsonValue.obj (.cons "error" (.str "rate limited") .nil)) from rfl]
    rfl
  simp only [interpretViaNetwork, hmsg]
  rw [show normalizeError "rate limited" = "rate limited" from rfl]
  exact errorFill_get _ _ _ hi

theorem c3_http500_uniform_error_witness :
    (alGet ([] : Cache) (cacheKey ["const x = 10;"] "English") = none) ∧
    (0 < List.length ["const x = 10;"]) ∧
    alGet (interpretLines (.response false 500 "Internal Server Error" c3Body)
        [] ["const x = 10;"] "English").result (some (Int.ofNat 0)) =
      some (some (.str "Error: rate limited")) :=
  ⟨rfl, by decide,
   c3_http500_uniform_error ["const x = 10;"] "English" [] "Internal Server Error"
     rfl 0 (by decide)⟩

/-- C3 counterexample: at the concrete input of the claim (HTTP 500,
rate-limited body, one requested unit) the per-unit result is the string
Error: rate limited, not Error: Server error: rate limited. -/
theorem c3_http500_cex :
    alGet (interpretLines (.response false 500 "Internal Server Error" c3Body)
        [] ["const x = 10;"] "English").result (some (Int.ofNat 0)) ≠
      some (some (.str "Error: Server error: rate limited")) := by
  rw [show alGet (interpretLines (.response false 500 "Internal Server Error" c3Body)
      [] ["const x = 10;"] "English").result (some (Int.ofNat 0)) =
      some (some (.str "Error: rate limited")) from rfl]
  decide

/-! ## C7 -/

theorem autoLineUnit_fst (doc : List String) (i : Nat) (p : Nat × String)
    (h : autoLineUnit doc i = some p) : p.1 = i := by
  unfold autoLineUnit at h
  cases hget : doc[i]? with
  | none => rw [hget] at h; exact absurd h (by simp)
  | some text =>
    rw [hget] at h
    by_cases hc : jsTrim text = "" ∨ strStartsWith (jsTrim text) "//" ∨
        strStartsWith (jsTrim text) "/*" ∨ strStartsWith (jsTrim text) "*"
    · simp [hc] at h
    · simp only [if_neg hc] at h
      cases h
      rfl

/-- C7: the continuous auto-interpret extractor only considers the first
100 lines and yields its units in ascending line order, while the
interpret-selected-lines collection has no cap: every selected line whose
trimmed text qualifies becomes a unit, whatever its line number. -/
theorem c7_cap_and_order (doc : List String) (selected : List Nat) (ln : Nat)
    (text : String) :
    (∀ p ∈ autoInterpretLines doc, p.1 < 100) ∧
    List.Pairwise (fun p q => p.1 < q.1) (autoInterpretLines doc) ∧
    (ln ∈ selected → doc[ln]? = some text → qualifiesSelected text = true →
      (ln, jsTrim text) ∈ collectSelectedLines doc selected) := by
  refine ⟨?_, ?_, ?_⟩
  · intro p hp
    rw [autoInterpretLines, List.mem_filterMap] at hp
    obtain ⟨i, hi, hf⟩ := hp
    rw [List.mem_range, lt_min_iff] at hi
    rw [autoLineUnit_fst doc i p hf]
    exact hi.2
  · rw [autoInterpretLines]
    apply List.pairwise_filterMap.mpr
    apply (List.pairwise_lt_range _).imp
    intro a b hab x hx y hy
    rw [autoLineUnit_fst doc a x hx, autoLineUnit_fst doc b y hy]
    exact hab
  · intro hsel hget hq
    rw [collectSelectedLines, List.mem_filterMap]
    exact ⟨ln, hsel, by simp [selLineUnit, hget, hq]⟩

theorem c7_cap_and_order_witness :
    ((102 : Nat) ∈ [102]) ∧
    (List.replicate 103 "x = 1;")[102]? = some "x = 1;" ∧
    qualifiesSelected "x = 1;" = true ∧
    (102, jsTrim "x = 1;") ∈
      collectSelectedLines (List.replicate 103 "x = 1;") [102] :=
  ⟨by decide, by decide, by decide,
   (c7_cap_and_order (List.replicate 103 "x = 1;") [102] 102 "x = 1;").2.2
     (by decide) (by decide) (by decide)⟩

/-! ## C5 -/

theorem mem_insertDesc (x a : Nat) (l : List Nat) :
    a ∈ insertDesc x l ↔ a = x ∨ a ∈ l := by
  induction l with
  | nil => simp [insertDesc]
  | cons y ys ih =>
    by_cases h : y ≤ x
    · simp [insertDesc, h]
    · simp [insertDesc, h, ih]
      tauto

theorem pairwise_ge_insertDesc (x : Nat) (l : List Nat)
    (h : l.Pairwise (fun a b => b ≤ a)) :
    (insertDesc x l).Pairwise (fun a b => b ≤ a) := by
  induction l with
  | nil => simp [insertDesc]
  | cons y ys ih =>
    rw [List.pairwise_cons] at h
    by_cases hyx : y ≤ x
    · simp only [insertDesc, if_pos hyx]
      rw [List.pairwise_cons]
      refine ⟨?_, List.pairwise_cons.mpr h⟩
      intro b hb
      rcases List.mem_cons.mp hb with rfl | hb2
      · exact hyx
      · exact le_trans (h.1 b hb2) hyx
    · simp only [insertDesc, if_neg hyx]
      rw [List.pairwise_cons]
      refine ⟨?_, ih h.2⟩
      intro b hb
      rcases (mem_insertDesc x b ys).mp hb with rfl | hb2
      · omega
      · exact h.1 b hb2

theorem perm_insertDesc (x : Nat) (l : List Nat) :
    (insertDesc x l).Perm (x :: l) := by
  induction l with
  | nil => exact List.Perm.refl _
  | cons y ys ih =>
    by_cases h : y ≤ x
    · simp [insertDesc, h]
    · simp only [insertDesc, if_neg h]
      exact (ih.cons y).trans (List.Perm.swap x y ys)

theorem sortDesc_perm (l : List Nat) : (sortDesc l).Perm l := by
  induction l with
  | nil => exact List.Perm.refl _
  | cons a l ih =>
    exact (perm_insertDesc a (sortDesc l)).trans (ih.cons a)

theorem sortDesc_sorted (l : List Nat) :
    (sortDesc l).Pairwise (fun a b => b ≤ a) := by
  induction l with
  | nil => simp [sortDesc]
  | cons a l ih => exact pairwise_ge_insertDesc a (sortDesc l) ih

theorem sortDesc_gt (l : List Nat) (h : l.Nodup) :
    (sortDesc l).Pairwise (· > ·) := by
  have hnd : (sortDesc l).Nodup := (sortDesc_perm l).symm.nodup h
  exact ((sortDesc_sorted l).and hnd).imp
    (fun hab => lt_of_le_of_ne hab.1 (Ne.symm hab.2))

theorem extractInserts_append (a b : List EditOp) :
    extractInserts (a ++ b) = extractInserts a ++ extractInserts b := by
  induction a with
  | nil => rfl
  | cons op rest ih => cases op <;> simp [extractInserts, ih]

theorem extractInserts_deletes (l : List Nat) :
    extractInserts (l.map EditOp.deleteLine) = [] := by
  induction l with
  | nil => rfl
  | cons x rest ih => simp [extractInserts, ih]

/-- Whether the insertion loop emits an insert for a line: only when the
explanations map holds a non-empty explanation for it. -/
def emitsInsert (explanations : List (Nat × String)) (ln : Nat) : Bool :=
  match alGet explanations ln with
  | some e => e ≠ ""
  | none => false

theorem extractInserts_processLine (doc : List String) (pre suf : String)
    (expl : List (Nat × String)) (ln : Nat) (inserted : List Nat) :
    extractInserts (processLine doc pre suf expl ln inserted).1 =
    if emitsInsert expl ln then [ln + 1] else [] := by
  unfold processLine emitsInsert
  cases alGet expl ln with
  | none => rfl
  | some e =>
    by_cases he : e = "" <;>
      simp [he, extractInserts_append, extractInserts_deletes, extractInserts]

theorem extractInserts_insertLoop (doc : List String) (pre suf : String)
    (expl : List (Nat × String)) (lns : List Nat) (inserted : List Nat) :
    extractInserts (insertLoop doc pre suf expl lns inserted).1 =
    (lns.filter (emitsInsert expl)).map (· + 1) := by
  induction lns generalizing inserted with
  | nil => rfl
  | cons ln rest ih =>
    simp only [insertLoop, extractInserts_append, extractInserts_processLine,
      List.filter]
    by_cases h : emitsInsert expl ln <;> simp [h, ih]

/-- C5: all edits of one result set are issued in a single transaction
(the one EditOp list of the single editor.edit call), and the insert
positions in it are strictly descending, so the not-yet-edited earlier
positions stay valid while later ones are inserted. -/
theorem c5_descending_inserts (activeUri : Option String) (docUri : String)
    (doc : List String) (languageId : String)
    (explanations : List (Nat × String)) (st : InsertState)
    (hnd : (explanations.map (·.1)).Nodup) :
    List.Pairwise (· > ·)
      (extractInserts (insertCommentsAsExplanations activeUri docUri doc
        languageId explanations st).1) := by
  unfold insertCommentsAsExplanations
  by_cases h : activeUri = some docUri
  · simp only [if_pos h]
    rw [extractInserts_insertLoop]
    apply List.pairwise_map.mpr
    exact ((sortDesc_gt _ hnd).filter (emitsInsert explanations)).imp
      (fun hab => by omega)
  · simp [if_neg h, extractInserts]

theorem c5_descending_inserts_witness :
    (([(2, "ec"), (0, "ea"), (1, "eb")].map (·.1)).Nodup : Prop) ∧
    List.Pairwise (· > ·)
      (extractInserts (insertCommentsAsExplanations (some "u") "u"
        ["a;", "b;", "c;"] "python" [(2, "ec"), (0, "ea"), (1, "eb")] ⟨[]⟩).1) :=
  ⟨by decide,
   c5_descending_inserts (some "u") "u" ["a;", "b;", "c;"] "python"
     [(2, "ec"), (0, "ea"), (1, "eb")] ⟨[]⟩ (by decide)⟩

/-! ## C4 -/

def sixMarkers : List String := ["//", "/*", "*", "#", "--", singleQuote]

theorem qualifiesSelected_eq_true (text : String)
    (hq : qualifiesSelected text = true) :
    jsTrim text ≠ "" ∧ ∀ m ∈ sixMarkers, strStartsWith (jsTrim text) m = false := by
  simp only [qualifiesSelected, Bool.and_eq_true, Bool.not_eq_true',
    decide_eq_false_iff_not] at hq
  refine ⟨hq.1.1.1.1.1.1, ?_⟩
  intro m hm
  simp only [sixMarkers, List.mem_cons, List.not_mem_nil, or_false] at hm
  rcases hm with rfl | rfl | rfl | rfl | rfl | rfl
  · exact hq.1.1.1.1.1.2
  · exact hq.1.1.1.1.2
  · exact hq.1.1.1.2
  · exact hq.1.1.2
  · exact hq.1.2
  · exact hq.2

/-- C4 (amended): the selection-mode extractor never emits a blank line
or a line whose trimmed text starts with one of the six markers; the
continuous auto-interpret extractor excludes blank lines and the three
markers it checks (line-comment, block-comment open, block-comment
continuation), but it does emit qualifying lines starting with the hash,
double-dash or single-quote markers. -/
theorem c4_comment_filtering (doc : List String) (selected : List Nat)
    (ln : Nat) (text : String) (hget : doc[ln]? = some text) :
    ((jsTrim text = "" ∨ ∃ m ∈ sixMarkers, strStartsWith (jsTrim text) m = true) →
      ∀ t, (ln, t) ∉ collectSelectedLines doc selected) ∧
    ((jsTrim text = "" ∨ strStartsWith (jsTrim text) "//" = true ∨
        strStartsWith (jsTrim text) "/*" = true ∨
        strStartsWith (jsTrim text) "*" = true) →
      ∀ t, (ln, t) ∉ autoInterpretLines doc) ∧
    (ln < 100 → jsTrim text ≠ "" → strStartsWith (jsTrim text) "//" = false →
      strStartsWith (jsTrim text) "/*" = false →
      strStartsWith (jsTrim text) "*" = false →
      (ln, jsTrim text) ∈ autoInterpretLines doc) := by
  refine ⟨?_, ?_, ?_⟩
  · intro hbad t hmem
    rw [collectSelectedLines, List.mem_filterMap] at hmem
    obtain ⟨ln2, _, hf⟩ := hmem
    unfold selLineUnit at hf
    split at hf
    · rename_i text2 hget2
      split at hf
      · rename_i hq
        simp only [Option.some.injEq, Prod.mk.injEq] at hf
        obtain ⟨rfl, -⟩ := hf
        rw [hget] at hget2
        injection hget2 with htext
        subst htext
        obtain ⟨hne, hmk⟩ := qualifiesSelected_eq_true text hq
        rcases hbad with hblank | ⟨m, hm, hsw⟩
        · exact hne hblank
        · rw [hmk m hm] at hsw
          exact Bool.false_ne_true hsw
      · exact absurd hf (by simp)
    · exact absurd hf (by simp)
  · intro hbad t hmem
    rw [autoInterpretLines, List.mem_filterMap] at hmem
    obtain ⟨ln2, -, hf⟩ := hmem
    have hfst := autoLineUnit_fst doc ln2 (ln, t) hf
    simp only at hfst
    subst hfst
    unfold autoLineUnit at hf
    split at hf
    · rename_i text2 hget2
      rw [hget] at hget2
      injection hget2 with htext
      subst htext
      dsimp only at hf
      split at hf
      · exact absurd hf (by simp)
      · rename_i hcond
        apply hcond
        rcases hbad with h | h | h | h
        · exact Or.inl h
        · exact Or.inr (Or.inl h)
        · exact Or.inr (Or.inr (Or.inl h))
        · exact Or.inr (Or.inr (Or.inr h))
    · exact absurd hf (by simp)
  · intro hcap hne h1 h2 h3
    rw [autoInterpretLines, List.mem_filterMap]
    refine ⟨ln, ?_, ?_⟩
    · rw [List.mem_range, lt_min_iff]
      refine ⟨?_, hcap⟩
      exact (List.getElem?_eq_some.mp hget).1
    · unfold autoLineUnit
      rw [hget]
      dsimp only
      rw [if_neg]
      simp [hne, h1, h2, h3]

theorem c4_comment_filtering_witness :
    (["x = 1;", "# note"][0]? = some "x = 1;") ∧
    ((0 : Nat) < 100) ∧ (jsTrim "x = 1;" ≠ "") ∧
    (strStartsWith (jsTrim "x = 1;") "//" = false) ∧
    (strStartsWith (jsTrim "x = 1;") "/*" = false) ∧
    (strStartsWith (jsTrim "x = 1;") "*" = false) ∧
    (0, jsTrim "x = 1;") ∈ autoInterpretLines ["x = 1;", "# note"] :=
  ⟨by decide, by decide, by decide, by decide, by decide, by decide,
   (c4_comment_filtering ["x = 1;", "# note"] [] 0 "x = 1;" (by decide)).2.2
     (by decide) (by decide) (by decide) (by decide) (by decide)⟩

/-- C4 counterexample: a line whose trimmed text starts with the hash
marker is emitted as a unit by the continuous auto-interpret extractor,
contradicting the claim that neither extractor emits such lines. -/
theorem c4_comment_filtering_cex :
    strStartsWith (jsTrim "# note") "#" = true ∧
    (0, "# note") ∈ autoInterpretLines ["# note"] := by
  constructor
  · decide
  · decide

/-! ## C2 -/

theorem replay_eq_fill (codeLines : List String) (items : List JsonValue)
    (m : RMap)
    (h : ∀ it ∈ items, ∃ n : Int,
      itemLineNumber it = some n ∧ 1 ≤ n ∧ n ≤ codeLines.length) :
    replayExplanations items m = fillExplanations codeLines items m := by
  induction items generalizing m with
  | nil => rfl
  | cons it rest ih =>
    obtain ⟨n, hln, h1, h2⟩ := h it (by simp)
    have hcond : 0 ≤ n - 1 ∧ n - 1 < (codeLines.length : Int) := by omega
    simp only [replayExplanations, fillExplanations, hln, Option.map_some',
      if_pos hcond]
    exact ih _ (fun it2 hit => h it2 (by simp [hit]))

/-- C2 (amended): when the first call succeeds (parsable 2xx response,
no truthy error or body field, an explanations array all of whose items
carry an integer lineNumber between 1 and the batch size), a second call
with the same codeLines and language is served entirely from the cache —
no network request regardless of what the network would answer — with a
result map and cache identical to the first call.  (Without the
line-number range condition the replay can differ, see the
counterexample.) -/
theorem c2_cache_idempotent (codeLines : List String) (language : String)
    (cache : Cache) (status : Nat) (statusText text : String)
    (data : JsonValue) (items : JsonArr) (net2 : FetchOutcome)
    (hmiss : alGet cache (cacheKey codeLines language) = none)
    (hparse : parseJson text = some data)
    (herr : truthyField data "error" = none)
    (hbody : truthyField data "body" = none)
    (hexp : data.getField "explanations" = some (.arr items))
    (hrange : ∀ it ∈ items.toList, ∃ n : Int,
      itemLineNumber it = some n ∧ 1 ≤ n ∧ n ≤ codeLines.length) :
    (interpretLines net2
      (interpretLines (.response true status statusText text) cache
        codeLines language).cache codeLines language).usedNetwork = false ∧
    (interpretLines net2
      (interpretLines (.response true status statusText text) cache
        codeLines language).cache codeLines language).result =
      (interpretLines (.response true status statusText text) cache
        codeLines language).result ∧
    (interpretLines net2
      (interpretLines (.response true status statusText text) cache
        codeLines language).cache codeLines language).cache =
      (interpretLines (.response true status statusText text) cache
        codeLines language).cache := by
  have ho1 : interpretLines (.response true status statusText text) cache
      codeLines language =
      { result := fillExplanations codeLines items.toList []
        cache := alSet cache (cacheKey codeLines language) data
        usedNetwork := true } := by
    rw [interpretLines_miss _ _ _ _ hmiss]
    have hnn : data ≠ JsonValue.null :=
      getField_ne_null data "explanations" (.arr items) hexp
    simp only [interpretViaNetwork, hparse, hnn, herr, hbody, finishData, hexp]
    rfl
  have ho2 : interpretLines net2
      (interpretLines (.response true status statusText text) cache
        codeLines language).cache codeLines language =
      { result := replayExplanations items.toList []
        cache := alSet cache (cacheKey codeLines language) data
        usedNetwork := false } := by
    rw [ho1]
    simp only [interpretLines, alGet_set_self, hexp]
  rw [ho2, ho1]
  exact ⟨rfl, replay_eq_fill codeLines items.toList [] hrange, rfl⟩

def c2Body : String :=
  "\x7b\"explanations\":[\x7b\"lineNumber\":1,\"explanation\":\"ok\"\x7d]\x7d"

def c2Data : JsonValue :=
  .obj (.cons "explanations"
    (.arr (.cons
      (.obj (.cons "lineNumber" (.num 1)
        (.cons "explanation" (.str "ok") .nil))) .nil)) .nil)

theorem c2_cache_idempotent_witness :
    (alGet ([] : Cache) (cacheKey ["const x = 10;"] "English") = none) ∧
    (parseJson c2Body = some c2Data) ∧
    ((interpretLines (.response true 200 "OK" c2Body)
      (interpretLines (.response true 200 "OK" c2Body) [] ["const x = 10;"]
        "English").cache ["const x = 10;"] "English").usedNetwork = false ∧
     (interpretLines (.response true 200 "OK" c2Body)
      (interpretLines (.response true 200 "OK" c2Body) [] ["const x = 10;"]
        "English").cache ["const x = 10;"] "English").result =
       (interpretLines (.response true 200 "OK" c2Body) [] ["const x = 10;"]
         "English").result ∧
     (interpretLines (.response true 200 "OK" c2Body)
      (interpretLines (.response true 200 "OK" c2Body) [] ["const x = 10;"]
        "English").cache ["const x = 10;"] "English").cache =
       (interpretLines (.response true 200 "OK" c2Body) [] ["const x = 10;"]
         "English").cache) :=
  ⟨rfl, rfl,
   c2_cache_idempotent ["const x = 10;"] "English" [] 200 "OK" c2Body c2Data
     (.cons (.obj (.cons "lineNumber" (.num 1)
       (.cons "explanation" (.str "ok") .nil))) .nil)
     (.response true 200 "OK" c2Body) rfl rfl rfl rfl rfl
     (fun it hit => by
       simp only [JsonArr.toList, List.mem_singleton] at hit
       subst hit
       exact ⟨1, rfl, by decide, by decide⟩)⟩

def c2CexBody : String :=
  "\x7b\"explanations\":[\x7b\"lineNumber\":1,\"explanation\":\"x\"\x7d,\x7b\"lineNumber\":5,\"explanation\":\"y\"\x7d]\x7d"

/-- C2 counterexample: with a stored response whose second item carries
the out-of-range lineNumber 5 for a one-element batch, the first call
filters it out but the cache replay does not, so the second call is
served from cache yet returns a different result map (it has an entry at
index 4 that the first result lacks). -/
theorem c2_cache_idempotent_cex :
    (interpretLines (.response true 200 "OK" c2CexBody)
      (interpretLines (.response true 200 "OK" c2CexBody) [] ["a"]
        "English").cache ["a"] "English").usedNetwork = false ∧
    alGet (interpretLines (.response true 200 "OK" c2CexBody) [] ["a"]
      "English").result (some 4) = none ∧
    alGet (interpretLines (.response true 200 "OK" c2CexBody)
      (interpretLines (.response true 200 "OK" c2CexBody) [] ["a"]
        "English").cache ["a"] "English").result (some 4) =
      some (some (.str "y")) ∧
    (interpretLines (.response true 200 "OK" c2CexBody)
      (interpretLines (.response true 200 "OK" c2CexBody) [] ["a"]
        "English").cache ["a"] "English").result ≠
      (interpretLines (.response true 200 "OK" c2CexBody) [] ["a"]
        "English").result :=
  ⟨rfl, rfl, rfl, by decide⟩

/-! ## C1 -/

/-- C1 (amended): for a parsable 2xx batched response (with a cold cache
key): a truthy outer error field fails the whole batch with the
Server-error message; when there is no outer error and the body field
holds a JSON-encoded string whose parse succeeds, the client unwraps that
one level, and — provided the nested payload is not JSON null and does
not itself carry a truthy body field — the outcome equals that of an
unwrapped response with the very same payload; a truthy error field
inside the nested payload likewise fails the whole batch; and a nested
payload that is JSON null fails the batch with the parse-failure message
(the TypeError its error-field read raises is swallowed by the inner
catch), while the unwrapped null payload would fail with the TypeError
text instead — hence the null proviso on the equivalence. -/
theorem c1_body_unwrap (codeLines : List String) (language : String)
    (cache : Cache) (status : Nat) (statusText t : String) (outer : JsonValue)
    (hmiss : alGet cache (cacheKey codeLines language) = none)
    (hparse : parseJson t = some outer) :
    (∀ e, truthyField outer "error" = some e →
      interpretLines (.response true status statusText t) cache codeLines
        language =
      ⟨errorFill codeLines (normalizeError ("Server error: " ++ e.display)),
       cache, true⟩) ∧
    (∀ (s : String) (inner : JsonValue) (status2 : Nat) (statusText2 t2 : String),
      truthyField outer "error" = none →
      truthyField outer "body" = some (.str s) →
      parseJson s = some inner →
      parseJson t2 = some inner →
      inner ≠ JsonValue.null →
      truthyField inner "body" = none →
      interpretLines (.response true status statusText t) cache codeLines
        language =
      interpretLines (.response true status2 statusText2 t2) cache codeLines
        language) ∧
    (∀ (s : String) (inner : JsonValue) (e2 : JsonValue),
      truthyField outer "error" = none →
      truthyField outer "body" = some (.str s) →
      parseJson s = some inner →
      truthyField inner "error" = some e2 →
      interpretLines (.response true status statusText t) cache codeLines
        language =
      ⟨errorFill codeLines (normalizeError ("Server error: " ++ e2.display)),
       cache, true⟩) ∧
    (∀ s : String,
      truthyField outer "error" = none →
      truthyField outer "body" = some (.str s) →
      parseJson s = some JsonValue.null →
      interpretLines (.response true status statusText t) cache codeLines
        language =
      ⟨errorFill codeLines (normalizeError "Failed to parse response body"),
       cache, true⟩) := by
  refine ⟨?_, ?_, ?_, ?_⟩
  · intro e he
    rw [interpretLines_miss _ _ _ _ hmiss]
    have hnn := truthyField_ne_null outer "error" e he
    simp only [interpretViaNetwork, hparse, hnn, he]
    rfl
  · intro s inner status2 statusText2 t2 herr hbody hs ht2 hinn hinnerbody
    rw [interpretLines_miss _ _ _ _ hmiss, interpretLines_miss _ _ _ _ hmiss]
    have hnn := truthyField_ne_null outer "body" (.str s) hbody
    simp only [interpretViaNetwork, hparse, hnn, herr, hbody, ht2, hinn]
    rw [show JsonValue.display (.str s) = s from rfl]
    simp only [hs, hinn]
    cases hie : truthyField inner "error" with
    | some e2 => simp only [hie]; rfl
    | none => simp only [hie, hinnerbody]; rfl
  · intro s inner e2 herr hbody hs hie
    rw [interpretLines_miss _ _ _ _ hmiss]
    have hnn := truthyField_ne_null outer "body" (.str s) hbody
    have hinn := truthyField_ne_null inner "error" e2 hie
    simp only [interpretViaNetwork, hparse, hnn, herr, hbody]
    rw [show JsonValue.display (.str s) = s from rfl]
    simp only [hs, hinn, hie]
    rfl
  · intro s herr hbody hs
    rw [interpretLines_miss _ _ _ _ hmiss]
    have hnn := truthyField_ne_null outer "body" (.str s) hbody
    simp only [interpretViaNetwork, hparse, hnn, herr, hbody]
    rw [show JsonValue.display (.str s) = s from rfl]
    simp only [hs, if_pos rfl]
    rfl

def c1Inner : String :=
  "\x7b\"explanations\":[\x7b\"lineNumber\":1,\"explanation\":\"E\"\x7d]\x7d"

def c1Wrapped : String :=
  "\x7b\"body\":\"\x7b\\\"explanations\\\":[\x7b\\\"lineNumber\\\":1,\\\"explanation\\\":\\\"E\\\"\x7d]\x7d\"\x7d"

def c1InnerData : JsonValue :=
  .obj (.cons "explanations"
    (.arr (.cons
      (.obj (.cons "lineNumber" (.num 1)
        (.cons "explanation" (.str "E") .nil))) .nil)) .nil)

def c1OuterData : JsonValue := .obj (.cons "body" (.str c1Inner) .nil)

theorem c1_body_unwrap_witness :
    (alGet ([] : Cache) (cacheKey ["a"] "English") = none) ∧
    (parseJson c1Wrapped = some c1OuterData) ∧
    interpretLines (.response true 200 "OK" c1Wrapped) [] ["a"] "English" =
      interpretLines (.response true 200 "Fine" c1Inner) [] ["a"] "English" :=
  ⟨rfl, rfl,
   (c1_body_unwrap ["a"] "English" [] 200 "OK" c1Wrapped c1OuterData rfl
     rfl).2.1 c1Inner c1InnerData 200 "Fine" c1Inner rfl rfl rfl rfl (by decide)
     rfl⟩

def c1CexInner : String :=
  "\x7b\"body\":\"x\",\"explanations\":[\x7b\"lineNumber\":1,\"explanation\":\"E\"\x7d]\x7d"

def c1CexWrapped : String :=
  "\x7b\"body\":\"\x7b\\\"body\\\":\\\"x\\\",\\\"explanations\\\":[\x7b\\\"lineNumber\\\":1,\\\"explanation\\\":\\\"E\\\"\x7d]\x7d\"\x7d"

/-- C1 counterexample: a wrapped payload whose nested payload itself
carries a body field.  Processing the wrapped response succeeds (the
unwrap happens exactly once, and the nested body field is then ignored),
while processing the identical unwrapped payload attempts a second unwrap
of the unparsable inner body string and fails the batch — so the wrapped
response does not always yield the same explanations as the unwrapped
one. -/
theorem c1_body_unwrap_cex :
    alGet (interpretLines (.response true 200 "OK" c1CexWrapped) [] ["a"]
      "English").result (some 0) = some (some (.str "E")) ∧
    alGet (interpretLines (.response true 200 "OK" c1CexInner) [] ["a"]
      "English").result (some 0) =
      some (some (.str "Error: Failed to parse response body")) ∧
    (interpretLines (.response true 200 "OK" c1CexWrapped) [] ["a"]
      "English").result ≠
      (interpretLines (.response true 200 "OK" c1CexInner) [] ["a"]
        "English").result :=
  ⟨rfl, rfl, by decide⟩

/-! ## C9 -/

theorem finishData_cases (cache : Cache) (key : String)
    (codeLines : List String) (data : JsonValue) :
    (∃ msg, (finishData cache key codeLines data).result =
      errorFill codeLines msg) ∨
    (∃ items : List JsonValue,
      (finishData cache key codeLines data).result =
        fillExplanations codeLines items []) := by
  unfold finishData
  split
  · rename_i items heq
    exact Or.inr ⟨items.toList, rfl⟩
  · exact Or.inl ⟨_, rfl⟩

theorem interpretViaNetwork_cases (net : FetchOutcome) (cache : Cache)
    (codeLines : List String) (key : String) :
    (∃ msg, (interpretViaNetwork net cache codeLines key).result =
      errorFill codeLines msg) ∨
    (∃ items : List JsonValue,
      (interpretViaNetwork net cache codeLines key).result =
        fillExplanations codeLines items []) := by
  cases net with
  | networkError m => exact Or.inl ⟨normalizeError m, rfl⟩
  | response ok status statusText text =>
    simp only [interpretViaNetwork]
    split
    · exact Or.inl ⟨_, rfl⟩
    · split
      · exact Or.inl ⟨_, rfl⟩
      · split
        · exact Or.inl ⟨_, rfl⟩
        · split
          · exact Or.inl ⟨_, rfl⟩
          · split
            · exact finishData_cases _ _ _ _
            · split
              · exact Or.inl ⟨_, rfl⟩
              · split
                · exact Or.inl ⟨_, rfl⟩
                · split
                  · exact Or.inl ⟨_, rfl⟩
                  · exact finishData_cases _ _ _ _

theorem interpretLines_cases (net : FetchOutcome) (cache : Cache)
    (codeLines : List String) (language : String) :
    (∃ items : JsonArr, interpretLines net cache codeLines language =
      ⟨replayExplanations items.toList [], cache, false⟩) ∨
    interpretLines net cache codeLines language =
      interpretViaNetwork net cache codeLines (cacheKey codeLines language) := by
  simp only [interpretLines]
  split
  · rename_i cd heq
    split
    · rename_i items heq2
      exact Or.inl ⟨items, rfl⟩
    · exact Or.inr rfl
  · exact Or.inr rfl

/-- C9: interpretLines is total and classifies completely: either it was
served from the cache, or the response succeeded and the result is the
range-filtered fill of the explanations items, or (in every failure mode:
transport error, non-2xx status, unparsable body, truthy outer or nested
error field, failed body unwrap, missing explanations array) every index
of the request array receives one identical Error-prefixed message. -/
theorem c9_never_throws (net : FetchOutcome) (cache : Cache)
    (codeLines : List String) (language : String) :
    (∃ msg, ∀ i : Nat, i < codeLines.length →
      alGet (interpretLines net cache codeLines language).result
        (some (Int.ofNat i)) = some (some (.str ("Error: " ++ msg)))) ∨
    (∃ items : List JsonValue,
      (interpretLines net cache codeLines language).result =
        replayExplanations items [] ∧
      (interpretLines net cache codeLines language).usedNetwork = false) ∨
    (∃ items : List JsonValue,
      (interpretLines net cache codeLines language).result =
        fillExplanations codeLines items []) := by
  rcases interpretLines_cases net cache codeLines language with ⟨items, heq⟩ | heq
  · exact Or.inr (Or.inl ⟨items.toList, by rw [heq], by rw [heq]⟩)
  · rcases interpretViaNetwork_cases net cache codeLines
      (cacheKey codeLines language) with ⟨msg, hm⟩ | ⟨items, hm⟩
    · refine Or.inl ⟨msg, fun i hi => ?_⟩
      rw [heq, hm]
      exact errorFill_get _ _ _ hi
    · exact Or.inr (Or.inr ⟨items, by rw [heq, hm]⟩)

/-! ## C6 -/

theorem jsLen_append (a b : String) : jsLen (a ++ b) = jsLen a + jsLen b := by
  simp [jsLen, String.data_append]

theorem wrapGo_bound (pre suf : String) (hps : jsLen (pre ++ suf) ≤ 100)
    (words : List String) :
    ∀ cur : String,
      (∀ w ∈ words, jsLen (pre ++ w ++ suf) ≤ 100) →
      (cur = pre ∨ jsLen (cur ++ suf) ≤ 100) →
      ∀ l ∈ wrapGo pre suf cur words, jsLen (l ++ suf) ≤ 100 := by
  induction words with
  | nil =>
    intro cur _ hinv l hl
    simp only [wrapGo, List.mem_singleton] at hl
    subst hl
    rcases hinv with rfl | h
    · exact hps
    · exact h
  | cons w ws ih =>
    intro cur hw hinv l hl
    rw [wrapGo] at hl
    by_cases hc : jsLen (cur ++ (if cur = pre then "" else " ") ++ w ++ suf)
        > 100 ∧ cur ≠ pre
    · rw [if_pos hc] at hl
      rcases List.mem_cons.mp hl with rfl | hl2
      · rcases hinv with rfl | h
        · exact absurd rfl hc.2
        · exact h
      · refine ih (pre ++ w) (fun w2 hw2 => hw w2 (by simp [hw2]))
          (Or.inr ?_) l hl2
        exact hw w (by simp)
    · rw [if_neg hc] at hl
      refine ih _ (fun w2 hw2 => hw w2 (by simp [hw2])) (Or.inr ?_) l hl
      by_cases hcp : cur = pre
      · subst hcp
        have h1 := hw w (by simp)
        have h0 : jsLen "" = 0 := rfl
        simp only [jsLen_append, eq_self_iff_true, if_true] at h1 ⊢
        omega
      · have hle : ¬(jsLen (cur ++ (if cur = pre then "" else " ") ++ w ++ suf)
            > 100) := fun hgt => hc ⟨hgt, hcp⟩
        rw [not_lt] at hle
        exact hle

/-- C6 (amended): the persistent renderer first runs the cleaning
pipeline (filler phrases and embedded comment markers stripped by global
replacement, whitespace collapsed); when the cleaned text is longer than
100 units it word-wraps it, and — provided the code line carries no
indentation, marker plus suffix fit in 100 units, and each single word
fits in 100 units together with the comment marker and suffix — every
emitted comment line stays within 100 units.  (A single over-long word,
or a non-empty indent, can exceed the limit: see the counterexample.) -/
theorem c6_wrap_bound (pre suf expl : String)
    (hlong : 100 < jsLen (cleanExplanation expl))
    (hps : jsLen (pre ++ suf) ≤ 100)
    (hw : ∀ w ∈ splitOnChar ' ' (cleanExplanation expl),
      jsLen (pre ++ w ++ suf) ≤ 100) :
    (∀ l ∈ wrapLines pre suf (splitOnChar ' ' (cleanExplanation expl)),
      jsLen (l ++ suf) ≤ 100) ∧
    commentTextFor "" pre suf expl =
      strConcat ((wrapLines pre suf
        (splitOnChar ' ' (cleanExplanation expl))).map
          (fun l => l ++ suf ++ "\n")) := by
  constructor
  · exact fun l hl => wrapGo_bound pre suf hps _ pre hw (Or.inl rfl) l hl
  · simp only [commentTextFor]
    rw [if_neg (by omega)]
    rfl

def c6WitnessExpl : String := joinSep " " (List.replicate 25 "word")

theorem c6_wrap_bound_witness :
    (100 < jsLen (cleanExplanation c6WitnessExpl)) ∧
    (jsLen ("// 🧠 " ++ "") ≤ 100) ∧
    (∀ w ∈ splitOnChar ' ' (cleanExplanation c6WitnessExpl),
      jsLen ("// 🧠 " ++ w ++ "") ≤ 100) ∧
    ((∀ l ∈ wrapLines "// 🧠 " "" (splitOnChar ' ' (cleanExplanation c6WitnessExpl)),
      jsLen (l ++ "") ≤ 100) ∧
     commentTextFor "" "// 🧠 " "" c6WitnessExpl =
      strConcat ((wrapLines "// 🧠 " ""
        (splitOnChar ' ' (cleanExplanation c6WitnessExpl))).map
          (fun l => l ++ "" ++ "\n"))) :=
  ⟨by decide, by decide, by decide,
   c6_wrap_bound "// 🧠 " "" c6WitnessExpl (by decide) (by decide) (by decide)⟩

def c6CexExpl : String := ⟨List.replicate 101 'a'⟩

/-- C6 counterexample: one 101-character word.  The cleaned text is
longer than 100 characters, yet the wrapping loop emits it as a single
comment line of 107 UTF-16 units — the renderer does not guarantee that
no emitted comment line exceeds 100 characters. -/
theorem c6_wrap_bound_cex :
    ∃ l ∈ splitOnChar '\n'
      (commentTextFor "" (commentPrefixFor "javascript")
        (commentSuffixFor "javascript") c6CexExpl),
      100 < jsLen l := by decide

/-! ## C8 -/

theorem scanChar_nobrace (lines : List String) (i : Nat) (isStart : Bool)
    (st : ScanState) (c : Char) (h1 : c ≠ '\x7b') (h2 : c ≠ '\x7d') :
    scanChar lines i isStart st c = st := by
  simp [scanChar, h1, h2]

theorem foldl_scanChar_nobrace (lines : List String) (i : Nat)
    (isStart : Bool) (cs : List Char)
    (h : ∀ c ∈ cs, c ≠ '\x7b' ∧ c ≠ '\x7d') (st : ScanState) :
    cs.foldl (scanChar lines i isStart) st = st := by
  induction cs generalizing st with
  | nil => rfl
  | cons c rest ih =>
    rw [List.foldl_cons,
      scanChar_nobrace lines i isStart st c (h c (by simp)).1 (h c (by simp)).2]
    exact ih (fun c2 hc2 => h c2 (by simp [hc2])) st

theorem scanLine_nobrace (lines : List String) (i : Nat) (line : String)
    (hget : lines[i]? = some line)
    (h : ∀ c ∈ line.data, c ≠ '\x7b' ∧ c ≠ '\x7d') (st : ScanState) :
    scanLine lines st i = st := by
  unfold scanLine
  rw [hget]
  dsimp only
  split
  · rfl
  · exact foldl_scanChar_nobrace lines i _ line.data h st

theorem foldl_scanLine_invariant (doc : List String) (idxs : List Nat)
    (h : ∀ i ∈ idxs, ∀ st : ScanState, scanLine doc st i = st)
    (st : ScanState) :
    idxs.foldl (scanLine doc) st = st := by
  induction idxs generalizing st with
  | nil => rfl
  | cons i rest ih =>
    rw [List.foldl_cons, h i (by simp)]
    exact ih (fun j hj st2 => h j (by simp [hj]) st2) st

/-- C8: the block-mode extractor.  First part: for a document made of the
block introducer line, brace-free body lines and the closing brace line,
exactly one unit is emitted, spanning the whole function.  Second part:
for any document without brace characters, the scan finds no block and
the extractor degenerates to one unit per qualifying line. -/
theorem c8_block_extraction (body doc2 : List String) :
    ((∀ l ∈ body, ∀ c ∈ l.data, c ≠ '\x7b' ∧ c ≠ '\x7d') →
      parseCodeBlocks ("function f() \x7b" :: body ++ ["\x7d"]) =
        [(0, body.length + 1,
          joinSep "\n" ("function f() \x7b" :: body ++ ["\x7d"]))]) ∧
    ((∀ l ∈ doc2, ∀ c ∈ l.data, c ≠ '\x7b' ∧ c ≠ '\x7d') →
      parseCodeBlocks doc2 = perLineBlocks doc2) := by
  constructor
  · intro hb
    have hlen : ("function f() \x7b" :: body ++ ["\x7d"]).length =
        body.length + 2 := by simp
    have hget0 : ("function f() \x7b" :: body ++ ["\x7d"])[0]? =
        some "function f() \x7b" := by
      rw [List.getElem?_append, if_pos (by simp)]
      exact List.getElem?_cons_zero
    have hst1 : scanLine ("function f() \x7b" :: body ++ ["\x7d"])
        ⟨0, none, []⟩ 0 = ⟨1, some 0, []⟩ := by
      unfold scanLine
      rw [hget0]
      dsimp only
      rw [if_neg (by decide)]
      rfl
    have hmid : ∀ i ∈ List.map Nat.succ (List.range body.length),
        ∀ st : ScanState,
        scanLine ("function f() \x7b" :: body ++ ["\x7d"]) st i = st := by
      intro i hi st
      obtain ⟨j, hj, rfl⟩ := List.mem_map.mp hi
      rw [List.mem_range] at hj
      have hget : ("function f() \x7b" :: body ++ ["\x7d"])[Nat.succ j]? =
          some body[j] := by
        rw [List.getElem?_append, if_pos (by simp only [List.length_cons]; omega),
          List.getElem?_cons_succ]
        exact List.getElem?_eq_getElem hj
      exact scanLine_nobrace _ _ _ hget (hb body[j] (List.getElem_mem hj)) st
    have hlast : ("function f() \x7b" :: body ++ ["\x7d"])[body.length + 1]? =
        some "\x7d" := by
      rw [List.getElem?_append_right (by simp)]
      simp
    have hfin : (List.range ("function f() \x7b" :: body ++ ["\x7d"]).length).foldl
        (scanLine ("function f() \x7b" :: body ++ ["\x7d"])) ⟨0, none, []⟩ =
        scanLine ("function f() \x7b" :: body ++ ["\x7d"]) ⟨1, some 0, []⟩
          (body.length + 1) := by
      rw [hlen, List.range_succ_eq_map, List.foldl_cons, hst1,
        List.range_succ, List.map_append, List.foldl_append,
        foldl_scanLine_invariant _ _ hmid]
      rfl
    have hscan : scanLine ("function f() \x7b" :: body ++ ["\x7d"])
        ⟨1, some 0, []⟩ (body.length + 1) =
        ⟨0, none, [(0, body.length + 1,
          joinSep "\n" ("function f() \x7b" :: body ++ ["\x7d"]))]⟩ := by
      unfold scanLine
      rw [hlast]
      dsimp only
      rw [if_neg (by decide)]
      rw [List.foldl_cons, List.foldl_nil]
      unfold scanChar
      rw [if_neg (by decide), if_pos rfl]
      dsimp only
      rw [if_pos (by decide)]
      rw [List.drop_zero,
        show body.length + 1 + 1 - 0 =
          ("function f() \x7b" :: body ++ ["\x7d"]).length from by
            rw [hlen]; omega, List.take_length]
      rfl
    unfold parseCodeBlocks
    rw [hfin, hscan]
    rfl
  · intro hd
    unfold parseCodeBlocks
    rw [foldl_scanLine_invariant doc2 _ (fun i hi st => by
      cases hget : doc2[i]? with
      | none => unfold scanLine; rw [hget]
      | some line =>
        exact scanLine_nobrace doc2 i line hget
          (hd line (by
            obtain ⟨hlt, heq⟩ := List.getElem?_eq_some.mp hget
            rw [← heq]
            exact List.getElem_mem hlt)) st)]
    rfl

theorem c8_block_extraction_witness :
    parseCodeBlocks ("function f() \x7b" :: ["  return 1;"] ++ ["\x7d"]) =
      [(0, List.length ["  return 1;"] + 1,
        joinSep "\n" ("function f() \x7b" :: ["  return 1;"] ++ ["\x7d"]))] ∧
    parseCodeBlocks ["const a = 1;", "", "// note"] =
      perLineBlocks ["const a = 1;", "", "// note"] :=
  ⟨(c8_block_extraction ["  return 1;"] ["const a = 1;", "", "// note"]).1
     (by decide),
   (c8_block_extraction ["  return 1;"] ["const a = 1;", "", "// note"]).2
     (by decide)⟩
